import Mathlib

/-
Verification development for the scrape-create extraction and asset
materialization pipeline.

The Python sources under src/scraper are shallowly embedded as pure Lean
functions.  External effects are modelled as explicit oracles passed in an
environment record:
  * the HTTP client (aiohttp session.get / response.read) becomes
    an oracle String to Option FetchResult, where none models a raised
    exception (timeout, connection error) and a FetchResult carries the
    status code and body bytes;
  * PIL.Image.open becomes a decode oracle on byte lists; PIL image.save
    and pathlib write operations become success oracles on filenames, a
    false result modelling a raised exception;
  * hashlib.md5 hexdigest becomes an abstract hash function on byte lists
    (the dedup logic only ever compares digests for equality);
  * the filesystem is modelled by an explicit trace of successful writes.
Machine integers do not overflow in any modelled routine, so byte values
and counts are plain Nat.  All string manipulation is done over character
lists with structural recursion so every definition evaluates by kernel
reduction.
-/

/-! ## String primitives (kernel-reducible re-implementations) -/

/-- Split a character list at every occurrence of a separator character. -/
def splitChar (sep : Char) : List Char → List (List Char)
  | [] => [[]]
  | c :: rest =>
    let r := splitChar sep rest
    if c = sep then [] :: r
    else
      match r with
      | [] => [[c]]
      | h :: t => (c :: h) :: t

/-- Character-wise lower casing, modelling Python str.lower and
JavaScript toLowerCase on the ASCII strings that occur here. -/
def lowerStr (s : String) : String := String.mk (s.toList.map Char.toLower)

/-- Strip leading and trailing whitespace, modelling JavaScript trim and
Python str.strip. -/
def trimStr (s : String) : String :=
  String.mk (((s.toList.dropWhile Char.isWhitespace).reverse.dropWhile
    Char.isWhitespace).reverse)

/-- JavaScript startsWith / Python startswith. -/
def startsWithStr (s p : String) : Bool := p.toList.isPrefixOf s.toList

/-- Contiguous-sublist test used to model substring containment. -/
def isSubListOf (sub : List Char) : List Char → Bool
  | [] => sub.isPrefixOf []
  | c :: rest => sub.isPrefixOf (c :: rest) || isSubListOf sub rest

/-- JavaScript String.prototype.includes (substring containment). -/
def containsStr (s sub : String) : Bool := isSubListOf sub.toList s.toList

/-- JavaScript substring(n) / suffix after dropping n characters. -/
def dropStr (n : Nat) (s : String) : String := String.mk (s.toList.drop n)

/-- Length in characters (the strings involved are ASCII, so this agrees
with the JavaScript UTF-16 length used by the source). -/
def strLen (s : String) : Nat := s.toList.length

/-- JavaScript `a || b` on nullable strings: the empty string is falsy. -/
def jsOrS : Option String → Option String → Option String
  | some s, b => if s = "" then b else some s
  | none, b => b

/-- JavaScript truthiness of a nullable string. -/
def jsTruthy : Option String → Bool
  | some s => s ≠ ""
  | none => false

/-! ## Python `urllib.parse.urlparse(url).path` and `pathlib.Path(...).suffix`

`urlPath` models urlparse for hierarchical URLs (the only kind that reaches
it: data URLs are filtered out earlier): the fragment is cut at the first
`#`, the query at the first `?`, and when a `://` separator is present the
netloc extends to the next `/`. -/

/-- Locate the first `://` separator and return what follows it. -/
def afterSchemeSep : List Char → Option (List Char)
  | ':' :: '/' :: '/' :: rest => some rest
  | _ :: rest => afterSchemeSep rest
  | [] => none

def urlPath (url : String) : String :=
  let noFrag := url.toList.takeWhile (fun c => c ≠ '#')
  let noQuery := noFrag.takeWhile (fun c => c ≠ '?')
  match afterSchemeSep noQuery with
  | some rest => String.mk (rest.dropWhile (fun c => c ≠ '/'))
  | none => String.mk noQuery

/-- The final path component, as pathlib computes it (trailing slashes and
empty or dot components are dropped). -/
def pathFinalName (p : String) : List Char :=
  ((splitChar '/' p.toList).filter (fun c => c ≠ [] ∧ c ≠ ['.'])).getLastD []

/-- `pathlib.PurePath.suffix`: the substring of the final component from its
last dot, provided that dot is neither the first nor the last character. -/
def pathSuffix (p : String) : String :=
  let cs := pathFinalName p
  if '.' ∈ cs then
    let after := (cs.reverse.takeWhile (fun c => c ≠ '.')).reverse
    let i := cs.length - after.length - 1
    if 0 < i ∧ i < cs.length - 1 then String.mk ('.' :: after) else ""
  else ""

/-! ## Minimal model of the PIL operations used by download_assets

A pixel always carries four channels; images whose PIL mode lacks an alpha
channel keep the convention alpha = 255.  A P (palette) image stores the
logical RGBA value each palette index denotes, which is what
`convert("RGBA")` recovers. -/

structure Pixel where
  r : Nat
  g : Nat
  b : Nat
  a : Nat
deriving DecidableEq, Repr

inductive PMode
  | RGB | RGBA | LA | P | L | CMYK
deriving DecidableEq, Repr

structure PImage where
  mode : PMode
  pixels : List Pixel
deriving DecidableEq, Repr

def whitePixel : Pixel := ⟨255, 255, 255, 255⟩

/-- `Image.new("RGB", size, (255, 255, 255))`: a white canvas of the same
pixel count. -/
def newRGBWhite (n : Nat) : PImage := ⟨PMode.RGB, List.replicate n whitePixel⟩

/-- `image.convert("RGBA")` for a palette image: expose the stored RGBA
values. -/
def convertRGBA (img : PImage) : PImage := ⟨PMode.RGBA, img.pixels⟩

/-- `image.convert("RGB")` for modes without alpha semantics: reinterpret
the channels, alpha forced opaque. -/
def convertRGB (img : PImage) : PImage :=
  ⟨PMode.RGB, img.pixels.map (fun p => { p with a := 255 })⟩

/-- Per-channel alpha blend used by `background.paste(image, mask=alpha)`. -/
def blendChannel (fg bg a : Nat) : Nat := (fg * a + bg * (255 - a)) / 255

/-- Per-pixel paste of a foreground pixel over a background pixel, masked
by the foreground alpha band. -/
def pastePixel (bg fg : Pixel) : Pixel :=
  ⟨blendChannel fg.r bg.r fg.a,
   blendChannel fg.g bg.g fg.a,
   blendChannel fg.b bg.b fg.a, 255⟩

/-- `background.paste(image, mask=image.split()[-1])`: blend onto the
background pixel-by-pixel using the alpha band as mask. -/
def pasteMask (bg fg : PImage) : PImage :=
  ⟨bg.mode, List.zipWith pastePixel bg.pixels fg.pixels⟩

/-- The mode-normalization block of download_assets (extract_assets.py,
lines 167-175): RGBA, LA and P images are flattened against a white RGB
background (palette images converted to RGBA first); any other non-RGB
mode is converted to RGB; RGB images pass through. -/
def flattenConvert (img : PImage) : PImage :=
  if img.mode = PMode.RGBA ∨ img.mode = PMode.LA ∨ img.mode = PMode.P then
    let background := newRGBWhite img.pixels.length
    let img2 := if img.mode = PMode.P then convertRGBA img else img
    pasteMask background img2
  else if img.mode ≠ PMode.RGB then convertRGB img
  else img

/-- Every pixel fully covered: no residual transparency. -/
def allAlpha255 (img : PImage) : Prop := ∀ p ∈ img.pixels, p.a = 255

/-- Every pixel fully transparent. -/
def fullyTransparent (img : PImage) : Prop := ∀ p ∈ img.pixels, p.a = 0

/-! ## download_assets (extract_assets.py, lines 117-229) -/

structure FetchResult where
  status : Nat
  content : List Nat
deriving DecidableEq, Repr

/-- One entry of the combined images + backgrounds candidate list.  The
source threads whole metadata dicts through; only the url drives control
flow, and the result entry is the same dict extended with local_path and
converted, which the model carries explicitly. -/
structure Asset where
  url : String
deriving DecidableEq, Repr

structure SvgData where
  content : String
  index : Nat
deriving DecidableEq, Repr

/-- Oracles for every external effect download_assets performs. -/
structure Env where
  fetch : String → Option FetchResult
  decode : List Nat → Option PImage
  webpSaveOk : String → PImage → Bool
  writeOk : String → Bool
  md5 : List Nat → String

inductive WriteData
  | webp (img : PImage)
  | raw (bytes : List Nat)
deriving DecidableEq, Repr

structure FileWrite where
  filename : String
  data : WriteData
deriving DecidableEq, Repr

structure DownloadedImage where
  url : String
  local_path : String
  converted : Bool
deriving DecidableEq, Repr

structure DownloadedSvg where
  content : String
  index : Nat
  local_path : String
deriving DecidableEq, Repr

/-- Mutable state of the image download loop: the result list, the
seen_hashes table (hash to assigned local path, in insertion order) and
the trace of files successfully written under assets/images. -/
structure DState where
  downloaded : List DownloadedImage
  seen : List (String × String)
  writes : List FileWrite
deriving DecidableEq, Repr

/-- The two textually identical save-the-original-bytes blocks (lines
188-194 and 196-202): default the extension to .jpg when empty, write the
raw bytes, record the path in seen_hashes.  A failing write raises, which
the per-asset handler turns into a skip, leaving the state unchanged. -/
def saveOriginalFile (env : Env) (st : DState) (url : String)
    (content : List Nat) (h ext : String) : DState :=
  let ext2 := if ext = "" then ".jpg" else ext
  let fn := h ++ ext2
  if env.writeOk fn then
    let path := "assets/images/" ++ fn
    { downloaded := st.downloaded ++ [⟨url, path, false⟩],
      seen := st.seen ++ [(h, path)],
      writes := st.writes ++ [⟨fn, WriteData.raw content⟩] }
  else st

def rasterExts : List String := [".jpg", ".jpeg", ".png", ".gif"]

/-- One iteration of the image download loop (lines 136-208). -/
def processAsset (env : Env) (cw : Bool) (st : DState) (a : Asset) : DState :=
  if startsWithStr a.url "data:" then st
  else
    match env.fetch a.url with
    | none => st
    | some r =>
      if r.status = 200 then
        let h := env.md5 r.content
        match List.lookup h st.seen with
        | some p =>
          { st with downloaded := st.downloaded ++ [⟨a.url, p, false⟩] }
        | none =>
          let ext := lowerStr (pathSuffix (urlPath a.url))
          if cw && rasterExts.contains ext then
            match env.decode r.content with
            | some img0 =>
              let img := flattenConvert img0
              let fn := h ++ ".webp"
              if env.webpSaveOk fn img then
                let path := "assets/images/" ++ fn
                { downloaded := st.downloaded ++ [⟨a.url, path, true⟩],
                  seen := st.seen ++ [(h, path)],
                  writes := st.writes ++ [⟨fn, WriteData.webp img⟩] }
              else saveOriginalFile env st a.url r.content h ext
            | none => saveOriginalFile env st a.url r.content h ext
          else saveOriginalFile env st a.url r.content h ext
      else st

/-- The inline-SVG save loop (lines 211-221), returning the result list and
the trace of files written under assets/svg. -/
def processSvgs (env : Env) (svgs : List SvgData) :
    List DownloadedSvg × List (String × String) :=
  svgs.foldl
    (fun acc s =>
      let fn := "inline-svg-" ++ toString s.index ++ ".svg"
      if env.writeOk fn then
        (acc.1 ++ [⟨s.content, s.index, "assets/svg/" ++ fn⟩],
         acc.2 ++ [(fn, s.content)])
      else acc)
    ([], [])

structure AssetsData where
  images : List Asset
  backgrounds : List Asset
  svgs : List SvgData
deriving DecidableEq, Repr

structure DownloadResult where
  images : List DownloadedImage
  svgs : List DownloadedSvg
  total_images : Nat
  total_svgs : Nat
  deduplicated : Nat
  seen : List (String × String)
  writes : List FileWrite
  svgWrites : List (String × String)
deriving DecidableEq, Repr

/-- download_assets: combine images and backgrounds into one candidate
list, run the download loop, save inline SVGs, and report counts. -/
def download_assets (env : Env) (assets : AssetsData) (cw : Bool) :
    DownloadResult :=
  let all_images := assets.images ++ assets.backgrounds
  let final := all_images.foldl (processAsset env cw) ⟨[], [], []⟩
  let svgRes := processSvgs env assets.svgs
  { images := final.downloaded,
    svgs := svgRes.1,
    total_images := final.downloaded.length,
    total_svgs := svgRes.1.length,
    deduplicated := all_images.length - final.downloaded.length,
    seen := final.seen,
    writes := final.writes,
    svgWrites := svgRes.2 }

/-! ## extract_content (extract_content.py): the paragraph pass

Each candidate element is modelled by the computed-style values the
visibility predicate reads, plus its innerText. -/

structure PElem where
  display : String
  visibility : String
  opacityStr : String
  offsetParentNull : Bool
  innerText : String
deriving DecidableEq, Repr

/-- The isVisible helper (extract_content.py, lines 23-29). -/
def isVisible (el : PElem) : Bool :=
  el.display ≠ "none" && el.visibility ≠ "hidden" &&
    el.opacityStr ≠ "0" && !el.offsetParentNull

/-- The getCleanText helper (lines 32-34). -/
def getCleanText (el : PElem) : String := trimStr el.innerText

/-- Body of the paragraph extraction loop (lines 53-60): keep the trimmed
text of a visible p element when it is truthy and strictly longer than 10
characters. -/
def paraStep (acc : List String) (el : PElem) : List String :=
  if isVisible el then
    let t := getCleanText el
    if t ≠ "" && strLen t > 10 then acc ++ [t] else acc
  else acc

/-- The paragraph extraction loop of extract_content. -/
def extractParagraphs (els : List PElem) : List String := els.foldl paraStep []

/-! ## extract_meta (extract_meta.py): the meta tag loop -/

structure MetaEl where
  nameAttr : Option String
  propertyAttr : Option String
  contentAttr : Option String
deriving DecidableEq, Repr

structure MetaResult where
  description : String
  keywords : List String
  author : Option String
  language : Option String
  opengraph : List (String × String)
  twitter : List (String × String)
deriving DecidableEq, Repr

def metaInit : MetaResult := ⟨"", [], none, none, [], []⟩

/-- JavaScript object property assignment on a string-keyed map: overwrite
in place when the key exists, append otherwise. -/
def upsert (m : List (String × String)) (k v : String) :
    List (String × String) :=
  if (List.lookup k m).isSome then
    m.map (fun p => if p.1 = k then (k, v) else p)
  else m ++ [(k, v)]

/-- The dedicated-field chain of the meta loop (extract_meta.py, lines
40-48): description, keywords (comma-split, trimmed), author and
language/lang, matched on the lowercased name. -/
def routeDedicated (st : MetaResult) (n c : String) : MetaResult :=
  let lowerName := lowerStr n
  if lowerName = "description" then { st with description := c }
  else if lowerName = "keywords" then
    { st with keywords :=
        ((splitChar ',' c.toList).map (fun k => trimStr (String.mk k))) }
  else if lowerName = "author" then { st with author := some c }
  else if lowerName = "language" ∨ lowerName = "lang" then
    { st with language := some c }
  else st

/-- The og: and twitter: routes of the meta loop (lines 51-60), matched
on the original name and keyed by the suffix after the prefix. -/
def routePrefixes (st : MetaResult) (n c : String) : MetaResult :=
  let st2 :=
    if startsWithStr n "og:" then
      { st with opengraph := upsert st.opengraph (dropStr 3 n) c }
    else st
  if startsWithStr n "twitter:" then
    { st2 with twitter := upsert st2.twitter (dropStr 8 n) c }
  else st2

/-- One iteration of the meta loop (extract_meta.py, lines 31-61):
name = getAttribute name or property; skip when name or content is falsy;
route the four dedicated fields on the lowercased name; route og: and
twitter: prefixes on the original name, keyed by the suffix. -/
def processMeta (st : MetaResult) (m : MetaEl) : MetaResult :=
  match jsOrS m.nameAttr m.propertyAttr, m.contentAttr with
  | some n, some c =>
    if n = "" || c = "" then st
    else routePrefixes (routeDedicated st n c) n c
  | _, _ => st

/-- The meta loop over all meta elements plus the html-lang fallback
(lines 77-79); title, canonical and favicon are independent lookups not
involved in any claim. -/
def extract_meta (metas : List MetaEl) (htmlLang : String) : MetaResult :=
  let st := metas.foldl processMeta metaInit
  match st.language with
  | none => { st with language := if htmlLang = "" then none else some htmlLang }
  | some _ => st

/-! ## extract_assets (extract_assets.py, lines 21-112): the locator pass

URL resolution (`new URL(url, baseUrl).href`) and the background-image
regex match are environment-supplied oracles: resolve returns none on a
malformed URL, bgUrlOf extracts the first url(...) argument. -/

structure ImgEl where
  src : Option String
  dataSrc : Option String
  srcset : Option String
  alt : Option String
deriving DecidableEq, Repr

structure BgEl where
  tagName : String
  backgroundImage : Option String
deriving DecidableEq, Repr

structure ImageRef where
  url : String
  alt : String
  refType : String
deriving DecidableEq, Repr

structure BackgroundRef where
  url : String
  element : String
  refType : String
deriving DecidableEq, Repr

structure InlineSvg where
  content : String
  index : Nat
  refType : String
deriving DecidableEq, Repr

structure LState where
  seen : List String
  images : List ImageRef
  backgrounds : List BackgroundRef
deriving DecidableEq, Repr

/-- The srcset sub-loop (lines 61-74): split on commas, trim, take the
token before the first space, resolve, record when fresh. -/
def processSrcsetCandidate (resolve : String → Option String) (alt : String)
    (st : LState) (cand : List Char) : LState :=
  let url := String.mk ((trimStr (String.mk cand)).toList.takeWhile
    (fun c => c ≠ ' '))
  match resolve url with
  | some fullUrl =>
    if fullUrl ∉ st.seen then
      { st with seen := st.seen ++ [fullUrl],
                images := st.images ++ [⟨fullUrl, alt, "srcset"⟩] }
    else st
  | none => st

/-- `img.getAttribute("alt") || ""` (line 44). -/
def jsAltOf (img : ImgEl) : String := (jsOrS img.alt (some "")).getD ""

/-- One iteration of the img loop (lines 41-75): src falls back to
data-src through JavaScript ||, then the srcset candidates are processed. -/
def processImg (resolve : String → Option String) (st : LState)
    (img : ImgEl) : LState :=
  let src := jsOrS img.src img.dataSrc
  let alt := jsAltOf img
  let st1 :=
    if jsTruthy src then
      match resolve (src.getD "") with
      | some fullUrl =>
        if fullUrl ∉ st.seen then
          { st with seen := st.seen ++ [fullUrl],
                    images := st.images ++ [⟨fullUrl, alt, "img"⟩] }
        else st
      | none => st
    else st
  match img.srcset with
  | some ss =>
    if ss ≠ "" then
      (splitChar ',' ss.toList).foldl (processSrcsetCandidate resolve alt) st1
    else st1
  | none => st1

/-- One iteration of the background loop (lines 78-96). -/
def processBg (resolve : String → Option String)
    (bgUrlOf : String → Option String) (st : LState) (el : BgEl) : LState :=
  match el.backgroundImage with
  | some bg =>
    if bg ≠ "" && bg ≠ "none" then
      match bgUrlOf bg with
      | some raw =>
        match resolve raw with
        | some fullUrl =>
          if fullUrl ∉ st.seen then
            { st with seen := st.seen ++ [fullUrl],
                      backgrounds := st.backgrounds ++
                        [⟨fullUrl, lowerStr el.tagName, "background"⟩] }
          else st
        | none => st
      | none => st
    else st
  | none => st

structure LocatedAssets where
  images : List ImageRef
  backgrounds : List BackgroundRef
  svgs : List InlineSvg
deriving DecidableEq, Repr

/-- The in-page locator script: img pass, then background pass sharing the
same seen set, then inline SVGs captured verbatim with their document
order index. -/
def extract_assets (resolve : String → Option String)
    (bgUrlOf : String → Option String) (imgs : List ImgEl)
    (els : List BgEl) (svgs : List String) : LocatedAssets :=
  let st1 := imgs.foldl (processImg resolve) ⟨[], [], []⟩
  let st2 := els.foldl (processBg resolve bgUrlOf) st1
  { images := st2.images,
    backgrounds := st2.backgrounds,
    svgs := (svgs.enum).map (fun p => ⟨p.2, p.1, "inline-svg"⟩) }

/-! ## extract_tokens (extract_tokens.py): colors, fonts, spacing

Color canonicalization through a throwaway DOM element is an oracle
normalize : String to String; the computed style always yields a string,
with the transparent sentinel value rgba(0, 0, 0, 0). -/

def transparentSentinel : String := "rgba(0, 0, 0, 0)"

/-- The addUniqueColor helper (extract_tokens.py, lines 53-58): push the
normalized color when it is truthy, not the transparent sentinel, and not
already present. -/
def addUniqueColor (normalize : String → String) (array : List String)
    (color : String) : List String :=
  let normalized := normalize color
  if normalized ≠ "" && normalized ≠ transparentSentinel &&
      !(array.contains normalized) then
    array ++ [normalized]
  else array

/-- Computed-style sample of one element from the sampled set. -/
structure TokenEl where
  tagName : String
  className : String
  color : String
  backgroundColor : String
  borderColor : String
  fontFamily : String
  fontSize : String
  fontWeight : String
deriving DecidableEq, Repr

structure ColorLists where
  primary : List String
  text : List String
  background : List String
  border : List String
deriving DecidableEq, Repr

structure FontLists where
  families : List String
  weights : List String
  sizes : List String
deriving DecidableEq, Repr

structure TState where
  colors : ColorLists
  fonts : FontLists
deriving DecidableEq, Repr

/-- The color-categorization block of one sampling iteration (lines
86-102): categorize the three computed colors by element role, then the
two unconditional background and border inserts. -/
def processTokenColors (normalize : String → String) (colors : ColorLists)
    (el : TokenEl) : ColorLists :=
  let colors :=
    if el.tagName = "BODY" ∨ el.tagName = "HTML" then
      { colors with background :=
          addUniqueColor normalize colors.background el.backgroundColor }
    else if startsWithStr el.tagName "H" ∨ el.tagName = "P" ∨
        el.tagName = "SPAN" then
      { colors with text := addUniqueColor normalize colors.text el.color }
    else if el.tagName = "BUTTON" ∨ containsStr el.className "button" ∨
        containsStr el.className "btn" then
      let primary1 := addUniqueColor normalize colors.primary el.backgroundColor
      { colors with primary := addUniqueColor normalize primary1 el.color }
    else colors
  let colors :=
    if el.backgroundColor ≠ "" && el.backgroundColor ≠ transparentSentinel then
      { colors with background :=
          addUniqueColor normalize colors.background el.backgroundColor }
    else colors
  if el.borderColor ≠ "" && el.borderColor ≠ transparentSentinel then
    { colors with border :=
        addUniqueColor normalize colors.border el.borderColor }
  else colors

/-- The font-recording block of one sampling iteration (lines 104-121):
record family, size and weight with seen-set dedup (each seen set always
equals the corresponding list, so the lists themselves serve as the
sets). -/
def processTokenFonts (fonts : FontLists) (el : TokenEl) : FontLists :=
  let fonts :=
    if el.fontFamily ≠ "" && !(fonts.families.contains el.fontFamily) then
      { fonts with families := fonts.families ++ [el.fontFamily] }
    else fonts
  let fonts :=
    if el.fontSize ≠ "" && !(fonts.sizes.contains el.fontSize) then
      { fonts with sizes := fonts.sizes ++ [el.fontSize] }
    else fonts
  if el.fontWeight ≠ "" && !(fonts.weights.contains el.fontWeight) then
    { fonts with weights := fonts.weights ++ [el.fontWeight] }
  else fonts

/-- One iteration of the sampling loop (lines 78-122); the color and font
updates touch disjoint state. -/
def processTokenEl (normalize : String → String) (st : TState)
    (el : TokenEl) : TState :=
  ⟨processTokenColors normalize st.colors el, processTokenFonts st.fonts el⟩

/-- Computed spacing values of one element of the spacing sample. -/
structure SpacingEl where
  padding : String
  margin : String
  gapValue : String
deriving DecidableEq, Repr

/-- The spacing loop (lines 128-136): push each of padding, margin, gap
when truthy, not the zero length, and unseen. -/
def processSpacingEl (acc : List String) (el : SpacingEl) : List String :=
  [el.padding, el.margin, el.gapValue].foldl
    (fun acc v =>
      if v ≠ "" && v ≠ "0px" && !(acc.contains v) then acc ++ [v] else acc)
    acc

/-! ### JavaScript parseFloat on the leading numeric literal

Models parseFloat for finite decimal literals (optional sign, integer
digits, optional fraction digits); font-size strings such as 16px or
1.5em are of this form.  none models NaN.  The value is kept as an exact
integer numerator over a power-of-ten denominator so that comparisons
reduce in the kernel (the represented number is num / den). -/

structure NumVal where
  num : Int
  den : Nat
deriving DecidableEq, Repr

/-- Order on parsed values by cross multiplication: exactly the order of
the represented rationals num / den (denominators are positive powers of
ten). -/
def numValLeb (x y : NumVal) : Bool := x.num * (y.den : Int) ≤ y.num * (x.den : Int)

def NumVal.toRat (v : NumVal) : ℚ := (v.num : ℚ) / (v.den : ℚ)

def leadingDigits (cs : List Char) : List Char := cs.takeWhile Char.isDigit

def digitsToNat (cs : List Char) : Nat :=
  cs.foldl (fun acc c => 10 * acc + (c.toNat - '0'.toNat)) 0

def parseNum (s : String) : Option NumVal :=
  let cs := s.toList.dropWhile Char.isWhitespace
  let signed : Int × List Char :=
    match cs with
    | '-' :: rest => (-1, rest)
    | '+' :: rest => (1, rest)
    | _ => (1, cs)
  let intPart := leadingDigits signed.2
  let rest := signed.2.drop intPart.length
  let fracPart :=
    match rest with
    | '.' :: r => leadingDigits r
    | _ => []
  if intPart = [] ∧ fracPart = [] then none
  else
    some ⟨signed.1 * ((digitsToNat intPart : Int) * (10 : Int) ^ fracPart.length
            + (digitsToNat fracPart : Int)),
          10 ^ fracPart.length⟩

/-- The comparator key of `sizes.sort((a, b) => parseFloat(a) - parseFloat(b))`
on parseable entries. -/
def sizeKey (s : String) : NumVal := (parseNum s).getD ⟨0, 1⟩

/-- Insert into a list sorted by sizeKey. -/
def insertBySize (x : String) : List String → List String
  | [] => [x]
  | y :: ys => if numValLeb (sizeKey x) (sizeKey y) then x :: y :: ys
               else y :: insertBySize x ys

/-- Sorting model of the JavaScript comparator sort: any correct
comparison sort yields a list ordered by the comparator key. -/
def sortBySize (l : List String) : List String := l.foldr insertBySize []

structure TokenResult where
  css_variables : List (String × String)
  colors : ColorLists
  fonts : FontLists
  spacing : List String
deriving DecidableEq, Repr

/-- extract_tokens: copy the root custom properties, run the sampling
loop, run the spacing loop, sort the font sizes numerically, and cap the
color lists at 10 and the spacing list at 15 (lines 138-146). -/
def extract_tokens (normalize : String → String)
    (cssVariables : List (String × String)) (els : List TokenEl)
    (spacingEls : List SpacingEl) : TokenResult :=
  let st := els.foldl (processTokenEl normalize) ⟨⟨[], [], [], []⟩, ⟨[], [], []⟩⟩
  let spacing := spacingEls.foldl processSpacingEl []
  let sortedSizes := sortBySize st.fonts.sizes
  { css_variables := cssVariables,
    colors :=
      { primary := st.colors.primary.take 10,
        text := st.colors.text.take 10,
        background := st.colors.background.take 10,
        border := st.colors.border.take 10 },
    fonts := { st.fonts with sizes := sortedSizes },
    spacing := spacing.take 15 }

/-! ## Concrete environments and elements used by closed statements -/

/-- An environment in which u1 and u2 both serve the same bytes with
status 200, decoding fails (so originals are stored) and every filesystem
write succeeds. -/
def sameBytesEnv : Env :=
  { fetch := fun u => if u = "u1" ∨ u = "u2" then some ⟨200, [7]⟩ else none,
    decode := fun _ => none,
    webpSaveOk := fun _ _ => true,
    writeOk := fun _ => true,
    md5 := fun b => "h" ++ toString b.length }

/-- An environment in which every fetch returns HTTP 404. -/
def all404Env : Env :=
  { fetch := fun _ => some ⟨404, []⟩,
    decode := fun _ => none,
    webpSaveOk := fun _ _ => true,
    writeOk := fun _ => true,
    md5 := fun b => "h" ++ toString b.length }

/-- An environment serving one byte of content for a png URL, decoding it
to a one-pixel fully transparent RGBA image. -/
def transparentPngEnv : Env :=
  { fetch := fun u => if u = "http://h/a.png" then some ⟨200, [9]⟩ else none,
    decode := fun b => if b = [9] then some ⟨PMode.RGBA, [⟨10, 20, 30, 0⟩]⟩ else none,
    webpSaveOk := fun _ _ => true,
    writeOk := fun _ => true,
    md5 := fun _ => "h9" }

/-- An environment serving bytes for an extensionless URL. -/
def noExtEnv : Env :=
  { fetch := fun u => if u = "http://h/img" then some ⟨200, [3]⟩ else none,
    decode := fun _ => none,
    webpSaveOk := fun _ _ => true,
    writeOk := fun _ => true,
    md5 := fun _ => "h3" }

/-- A fully visible paragraph element with the given text. -/
def visPara (t : String) : PElem := ⟨"block", "visible", "1", false, t⟩

/-- The failure cases of one download iteration relative to an empty
dedup table: data URL, fetch exception, non-200 status, or a fresh
download whose save attempts all raise. -/
def saveFails (env : Env) (cw : Bool) (url : String) (content : List Nat) : Bool :=
  let h := env.md5 content
  let ext := lowerStr (pathSuffix (urlPath url))
  let ext2 := if ext = "" then ".jpg" else ext
  if cw && rasterExts.contains ext then
    match env.decode content with
    | some img0 =>
      !env.webpSaveOk (h ++ ".webp") (flattenConvert img0) &&
        !env.writeOk (h ++ ext2)
    | none => !env.writeOk (h ++ ext2)
  else !env.writeOk (h ++ ext2)

def assetFails (env : Env) (cw : Bool) (url : String) : Bool :=
  if startsWithStr url "data:" then true
  else
    match env.fetch url with
    | none => true
    | some r => if r.status = 200 then saveFails env cw url r.content else true

/-- Invariant of every color role list: no duplicate canonical color and
no transparent sentinel. -/
def goodColorList (l : List String) : Prop :=
  l.Nodup ∧ transparentSentinel ∉ l

/-- Comparator order on size strings: the parsed numeric prefixes are in
non-decreasing order (NaN defaulting to 0, which the sortedness claims
exclude by hypothesis). -/
def sizeOrdered (a b : String) : Prop :=
  numValLeb (sizeKey a) (sizeKey b) = true

/-! ## Supporting lemmas -/

/-- The cross-multiplication order agrees with the rational-value order. -/
theorem numValLeb_iff_toRat_le (x y : NumVal) (hx : 0 < x.den) (hy : 0 < y.den) :
    numValLeb x y = true ↔ x.toRat ≤ y.toRat := by
  have hx0 : (0 : ℚ) < (x.den : ℚ) := by exact_mod_cast hx
  have hy0 : (0 : ℚ) < (y.den : ℚ) := by exact_mod_cast hy
  rw [numValLeb, NumVal.toRat, NumVal.toRat, div_le_div_iff₀ hx0 hy0,
    decide_eq_true_eq]
  constructor
  · intro h
    exact_mod_cast h
  · intro h
    exact_mod_cast h

example : pathSuffix (urlPath "http://h.com/a/b.PNG?x=1#f") = ".PNG" := by decide
example : pathSuffix (urlPath "http://h.com/a/photo") = "" := by decide
example : pathSuffix "x.tar.gz" = ".gz" := by decide
example : pathSuffix "a." = "" := by decide
example : pathSuffix ".bashrc" = "" := by decide
example : lowerStr (pathSuffix (urlPath "https://h.com/i.JPG")) = ".jpg" := by decide
example : parseNum "16px" = some ⟨16, 1⟩ := by decide
example : parseNum "1.5em" = some ⟨15, 10⟩ := by decide
example : parseNum "-2.25rem" = some ⟨-225, 100⟩ := by decide
example : parseNum "em" = none := by decide
example : sortBySize ["16px", "1.5em", "12px"] = ["1.5em", "12px", "16px"] := by decide

theorem foldl_paraStep_acc (els : List PElem) (acc : List String) :
    els.foldl paraStep acc = acc ++ els.foldl paraStep [] := by
  induction els generalizing acc with
  | nil => simp
  | cons e es ih =>
    simp only [List.foldl_cons]
    rw [ih (paraStep acc e), ih (paraStep [] e)]
    have h : paraStep acc e = acc ++ paraStep [] e := by
      simp only [paraStep]
      split
      · split <;> simp
      · simp
    rw [h, List.append_assoc]

theorem strLen_pos_ne_empty {t : String} (h : strLen t > 10) : t ≠ "" := by
  intro he
  rw [he] at h
  simp [strLen] at h

theorem mem_paraStep_nil (e : PElem) (t : String) :
    t ∈ paraStep [] e ↔
      isVisible e = true ∧ getCleanText e = t ∧ strLen t > 10 := by
  simp only [paraStep]
  split
  next hvis =>
    split
    next hc =>
      simp only [List.nil_append, List.mem_singleton]
      rw [Bool.and_eq_true, decide_eq_true_eq, decide_eq_true_eq] at hc
      constructor
      · rintro rfl
        exact ⟨hvis, rfl, hc.2⟩
      · rintro ⟨_, rfl, _⟩
        rfl
    next hc =>
      rw [Bool.and_eq_true, decide_eq_true_eq, decide_eq_true_eq] at hc
      push_neg at hc
      simp only [List.not_mem_nil, false_iff]
      rintro ⟨_, rfl, hlen⟩
      exact absurd hlen (by simpa using hc (strLen_pos_ne_empty hlen))
  next hvis =>
    simp only [List.not_mem_nil, false_iff]
    rintro ⟨h, _, _⟩
    exact hvis h

/-! ## Claim C3 -/

/-- Claim C3 counterexample: a fully visible p element whose trimmed text
has exactly 10 characters satisfies the claimed retention condition
(length at least 10) yet is dropped by extract_content, because the
source keeps only texts with length strictly greater than 10. -/
theorem c3_counterexample :
    isVisible (visPara "abcdefghij") = true ∧
    strLen (getCleanText (visPara "abcdefghij")) ≥ 10 ∧
    extractParagraphs [visPara "abcdefghij"] = [] := by decide

/-- Claim C3 (amended): in extractContent, a string is retained in
ContentRecord.paragraphs exactly when it is the trimmed text of a visible
p element and its length is strictly greater than 10 characters; in
particular paragraphs of trimmed length exactly 10 are dropped. -/
theorem c3_paragraph_retention (els : List PElem) (t : String) :
    t ∈ extractParagraphs els ↔
      ∃ el ∈ els, isVisible el = true ∧ getCleanText el = t ∧ strLen t > 10 := by
  induction els with
  | nil => simp [extractParagraphs]
  | cons e es ih =>
    rw [extractParagraphs, List.foldl_cons, foldl_paraStep_acc, List.mem_append]
    rw [extractParagraphs] at ih
    rw [ih, mem_paraStep_nil]
    constructor
    · rintro (h | ⟨el, hel, h⟩)
      · exact ⟨e, List.mem_cons_self e es, h⟩
      · exact ⟨el, List.mem_cons_of_mem e hel, h⟩
    · rintro ⟨el, hel, h⟩
      rcases List.mem_cons.mp hel with rfl | hel
      · exact Or.inl h
      · exact Or.inr ⟨el, hel, h⟩

theorem goodColorList_nil : goodColorList [] := ⟨List.nodup_nil, List.not_mem_nil _⟩

theorem goodColorList_addUniqueColor (normalize : String → String)
    (l : List String) (c : String) (h : goodColorList l) :
    goodColorList (addUniqueColor normalize l c) := by
  simp only [addUniqueColor]
  split
  next hc =>
    rw [Bool.and_eq_true, Bool.and_eq_true] at hc
    obtain ⟨⟨h1, h2⟩, h3⟩ := hc
    rw [decide_eq_true_eq] at h2
    rw [Bool.not_eq_true'] at h3
    have h3m : normalize c ∉ l := by simpa using h3
    constructor
    · rw [List.nodup_append]
      exact ⟨h.1, List.nodup_singleton _, by simpa [List.disjoint_singleton] using h3m⟩
    · rw [List.mem_append, List.mem_singleton]
      rintro (hm | hm)
      · exact h.2 hm
      · exact h2 hm.symm
  next => exact h

theorem goodColorList_processTokenColors (normalize : String → String)
    (colors : ColorLists) (el : TokenEl)
    (h : goodColorList colors.primary ∧ goodColorList colors.text ∧
      goodColorList colors.background ∧ goodColorList colors.border) :
    goodColorList (processTokenColors normalize colors el).primary ∧
    goodColorList (processTokenColors normalize colors el).text ∧
    goodColorList (processTokenColors normalize colors el).background ∧
    goodColorList (processTokenColors normalize colors el).border := by
  obtain ⟨hp, ht, hb, hr⟩ := h
  unfold processTokenColors
  split_ifs <;>
    refine ⟨?_, ?_, ?_, ?_⟩ <;>
    simp only [] <;>
    first
      | exact hp
      | exact ht
      | exact hb
      | exact hr
      | exact goodColorList_addUniqueColor _ _ _ hp
      | exact goodColorList_addUniqueColor _ _ _ ht
      | exact goodColorList_addUniqueColor _ _ _ hb
      | exact goodColorList_addUniqueColor _ _ _ hr
      | exact goodColorList_addUniqueColor _ _ _
          (goodColorList_addUniqueColor _ _ _ hp)
      | exact goodColorList_addUniqueColor _ _ _
          (goodColorList_addUniqueColor _ _ _ hb)

theorem goodColorList_tokenFold (normalize : String → String)
    (els : List TokenEl) (st : TState)
    (h : goodColorList st.colors.primary ∧ goodColorList st.colors.text ∧
      goodColorList st.colors.background ∧ goodColorList st.colors.border) :
    goodColorList (els.foldl (processTokenEl normalize) st).colors.primary ∧
    goodColorList (els.foldl (processTokenEl normalize) st).colors.text ∧
    goodColorList (els.foldl (processTokenEl normalize) st).colors.background ∧
    goodColorList (els.foldl (processTokenEl normalize) st).colors.border := by
  induction els generalizing st with
  | nil => exact h
  | cons e es ih =>
    rw [List.foldl_cons]
    exact ih _ (goodColorList_processTokenColors normalize st.colors e h)

/-! ## Claim C8 -/

/-- Claim C8: in every TokenRecord, each of the four color role lists
(primary, text, background, border) has at most 10 entries, no duplicate
canonical color string, and never contains the transparent sentinel
rgba(0, 0, 0, 0); the spacing list has at most 15 entries. -/
theorem c8_color_and_spacing_caps (normalize : String → String)
    (cssVariables : List (String × String)) (els : List TokenEl)
    (spacingEls : List SpacingEl) :
    ((extract_tokens normalize cssVariables els spacingEls).colors.primary.length ≤ 10 ∧
      (extract_tokens normalize cssVariables els spacingEls).colors.primary.Nodup ∧
      transparentSentinel ∉ (extract_tokens normalize cssVariables els spacingEls).colors.primary) ∧
    ((extract_tokens normalize cssVariables els spacingEls).colors.text.length ≤ 10 ∧
      (extract_tokens normalize cssVariables els spacingEls).colors.text.Nodup ∧
      transparentSentinel ∉ (extract_tokens normalize cssVariables els spacingEls).colors.text) ∧
    ((extract_tokens normalize cssVariables els spacingEls).colors.background.length ≤ 10 ∧
      (extract_tokens normalize cssVariables els spacingEls).colors.background.Nodup ∧
      transparentSentinel ∉ (extract_tokens normalize cssVariables els spacingEls).colors.background) ∧
    ((extract_tokens normalize cssVariables els spacingEls).colors.border.length ≤ 10 ∧
      (extract_tokens normalize cssVariables els spacingEls).colors.border.Nodup ∧
      transparentSentinel ∉ (extract_tokens normalize cssVariables els spacingEls).colors.border) ∧
    (extract_tokens normalize cssVariables els spacingEls).spacing.length ≤ 15 := by
  obtain ⟨hp, ht, hb, hr⟩ := goodColorList_tokenFold normalize els
    ⟨⟨[], [], [], []⟩, ⟨[], [], []⟩⟩
    ⟨goodColorList_nil, goodColorList_nil, goodColorList_nil, goodColorList_nil⟩
  refine ⟨⟨?_, ?_, ?_⟩, ⟨?_, ?_, ?_⟩, ⟨?_, ?_, ?_⟩, ⟨?_, ?_, ?_⟩, ?_⟩
  · exact List.length_take_le _ _
  · exact List.Nodup.sublist (List.take_sublist _ _) hp.1
  · exact fun hm => hp.2 ((List.take_sublist _ _).subset hm)
  · exact List.length_take_le _ _
  · exact List.Nodup.sublist (List.take_sublist _ _) ht.1
  · exact fun hm => ht.2 ((List.take_sublist _ _).subset hm)
  · exact List.length_take_le _ _
  · exact List.Nodup.sublist (List.take_sublist _ _) hb.1
  · exact fun hm => hb.2 ((List.take_sublist _ _).subset hm)
  · exact List.length_take_le _ _
  · exact List.Nodup.sublist (List.take_sublist _ _) hr.1
  · exact fun hm => hr.2 ((List.take_sublist _ _).subset hm)
  · exact List.length_take_le _ _

theorem parseNum_den_pos (s : String) (v : NumVal) (h : parseNum s = some v) :
    0 < v.den := by
  simp only [parseNum] at h
  split at h
  · exact absurd h (by simp)
  · rw [Option.some.injEq] at h
    rw [← h]
    exact pow_pos (by norm_num) _

theorem sizeKey_den_pos (s : String) : 0 < (sizeKey s).den := by
  unfold sizeKey
  cases h : parseNum s with
  | none => simp
  | some v =>
    rw [Option.getD_some]
    exact parseNum_den_pos s v h

theorem sizeOrdered_total (a b : String) : sizeOrdered a b ∨ sizeOrdered b a := by
  unfold sizeOrdered numValLeb
  rw [decide_eq_true_eq, decide_eq_true_eq]
  exact le_total _ _

theorem sizeOrdered_trans {a b c : String} (hab : sizeOrdered a b)
    (hbc : sizeOrdered b c) : sizeOrdered a c := by
  unfold sizeOrdered numValLeb at *
  rw [decide_eq_true_eq] at hab hbc ⊢
  have hbd : (0 : Int) < ((sizeKey b).den : Int) := by
    exact_mod_cast sizeKey_den_pos b
  have had : (0 : Int) ≤ ((sizeKey a).den : Int) := by positivity
  have hcd : (0 : Int) ≤ ((sizeKey c).den : Int) := by positivity
  nlinarith [mul_le_mul_of_nonneg_right hab hcd,
    mul_le_mul_of_nonneg_right hbc had]

theorem mem_insertBySize (z x : String) (l : List String) :
    z ∈ insertBySize x l ↔ z = x ∨ z ∈ l := by
  induction l with
  | nil => simp [insertBySize]
  | cons y ys ih =>
    rw [insertBySize]
    split
    · simp [List.mem_cons]
    · rw [List.mem_cons, ih, List.mem_cons]
      tauto

theorem pairwise_insertBySize (x : String) (l : List String)
    (h : l.Pairwise sizeOrdered) : (insertBySize x l).Pairwise sizeOrdered := by
  induction l with
  | nil => simp [insertBySize]
  | cons y ys ih =>
    rw [List.pairwise_cons] at h
    rw [insertBySize]
    split
    next hxy =>
      rw [List.pairwise_cons]
      constructor
      · intro z hz
        rcases List.mem_cons.mp hz with rfl | hz
        · exact hxy
        · exact sizeOrdered_trans hxy (h.1 z hz)
      · rw [List.pairwise_cons]
        exact h
    next hxy =>
      rw [List.pairwise_cons]
      constructor
      · intro z hz
        rcases (mem_insertBySize z x ys).mp hz with rfl | hz
        · rcases sizeOrdered_total z y with hzy | hyz
          · exact absurd hzy hxy
          · exact hyz
        · exact h.1 z hz
      · exact ih h.2

theorem pairwise_sortBySize (l : List String) :
    (sortBySize l).Pairwise sizeOrdered := by
  induction l with
  | nil => simp [sortBySize]
  | cons x xs ih =>
    rw [sortBySize, List.foldr_cons]
    exact pairwise_insertBySize x _ ih

/-! ## Claim C9 -/

/-- Claim C9: whenever every entry of the font-size list in the returned
TokenRecord has a parseable numeric prefix, the list is sorted with those
numeric prefixes in non-decreasing order, regardless of discovery
order. -/
theorem c9_sizes_sorted (normalize : String → String)
    (cssVariables : List (String × String)) (els : List TokenEl)
    (spacingEls : List SpacingEl)
    (h : ∀ s ∈ (extract_tokens normalize cssVariables els spacingEls).fonts.sizes,
      (parseNum s).isSome = true) :
    (extract_tokens normalize cssVariables els spacingEls).fonts.sizes.Pairwise
      (fun a b => ∃ x y, parseNum a = some x ∧ parseNum b = some y ∧
        numValLeb x y = true) := by
  have hsz : (extract_tokens normalize cssVariables els spacingEls).fonts.sizes =
      sortBySize ((els.foldl (processTokenEl normalize)
        ⟨⟨[], [], [], []⟩, ⟨[], [], []⟩⟩).fonts.sizes) := rfl
  have hp : (extract_tokens normalize cssVariables els
      spacingEls).fonts.sizes.Pairwise sizeOrdered := by
    rw [hsz]
    exact pairwise_sortBySize _
  refine hp.imp_of_mem ?_
  intro a b ha hb hab
  obtain ⟨x, hx⟩ := Option.isSome_iff_exists.mp (h a ha)
  obtain ⟨y, hy⟩ := Option.isSome_iff_exists.mp (h b hb)
  refine ⟨x, y, hx, hy, ?_⟩
  rw [sizeOrdered, sizeKey, sizeKey, hx, hy, Option.getD_some,
    Option.getD_some] at hab
  exact hab

/-- Witness for c9_sizes_sorted: two sampled elements discovered with
sizes 16px then 2px; all output entries parse and come out sorted. -/
theorem c9_sizes_sorted_witness :
    (∀ s ∈ (extract_tokens (fun c => c) []
        [⟨"P", "", "red", "blue", "green", "A", "16px", "400"⟩,
         ⟨"A", "x", "red", "blue", "green", "A", "2px", "400"⟩]
        []).fonts.sizes, (parseNum s).isSome = true) ∧
    (extract_tokens (fun c => c) []
        [⟨"P", "", "red", "blue", "green", "A", "16px", "400"⟩,
         ⟨"A", "x", "red", "blue", "green", "A", "2px", "400"⟩]
        []).fonts.sizes.Pairwise
      (fun a b => ∃ x y, parseNum a = some x ∧ parseNum b = some y ∧
        numValLeb x y = true) :=
  ⟨by decide, c9_sizes_sorted (fun c => c) _ _ _ (by decide)⟩

/-! ## Claim C6 -/

/-- Claim C6 counterexample: a meta element whose property is OG:Title
begins with og: up to letter casing, yet extract_meta routes nothing into
the opengraph mapping, because the og: and twitter: prefix tests use the
original, case-sensitive name. -/
theorem c6_counterexample :
    startsWithStr (lowerStr "OG:Title") "og:" = true ∧
    (extract_meta [⟨none, some "OG:Title", some "x"⟩] "").opengraph = [] := by
  decide

/-- Claim C6 (amended): for a meta element with truthy name n and content
c, the dedicated description, keywords, author and language fields are
matched on the lowercased name, while the og: and twitter: routes test
the original name case-sensitively and key by the suffix after the
prefix in its original casing. -/
theorem c6_meta_routing (n c : String) (hn : n ≠ "") (hc : c ≠ "") :
    processMeta metaInit ⟨some n, none, some c⟩ =
      { description := if lowerStr n = "description" then c else "",
        keywords := if lowerStr n = "keywords" then
            ((splitChar ',' c.toList).map (fun k => trimStr (String.mk k)))
          else [],
        author := if lowerStr n = "author" then some c else none,
        language := if lowerStr n = "language" ∨ lowerStr n = "lang" then
            some c
          else none,
        opengraph := if startsWithStr n "og:" then [(dropStr 3 n, c)] else [],
        twitter := if startsWithStr n "twitter:" then [(dropStr 8 n, c)]
          else [] } := by
  unfold processMeta
  simp only [jsOrS, if_neg hn]
  rw [if_neg (show ¬((decide (n = "") || decide (c = "")) = true) by
    simp [hn, hc])]
  have hded : routeDedicated metaInit n c =
      { description := if lowerStr n = "description" then c else "",
        keywords := if lowerStr n = "keywords" then
            ((splitChar ',' c.toList).map (fun k => trimStr (String.mk k)))
          else [],
        author := if lowerStr n = "author" then some c else none,
        language := if lowerStr n = "language" ∨ lowerStr n = "lang" then
            some c
          else none,
        opengraph := [],
        twitter := [] } := by
    unfold routeDedicated metaInit
    split_ifs <;> simp_all
  rw [hded]
  unfold routePrefixes
  split_ifs <;> simp [upsert]

/-- Witness for c6_meta_routing at the element og:title with content x. -/
theorem c6_meta_routing_witness :
    ("og:title" : String) ≠ "" ∧ ("x" : String) ≠ "" ∧
    processMeta metaInit ⟨some "og:title", none, some "x"⟩ =
      { description := if lowerStr "og:title" = "description" then "x" else "",
        keywords := if lowerStr "og:title" = "keywords" then
            ((splitChar ',' ("x" : String).toList).map
              (fun k => trimStr (String.mk k)))
          else [],
        author := if lowerStr "og:title" = "author" then some "x" else none,
        language := if lowerStr "og:title" = "language" ∨
            lowerStr "og:title" = "lang" then some "x"
          else none,
        opengraph := if startsWithStr "og:title" "og:" then
            [(dropStr 3 "og:title", "x")]
          else [],
        twitter := if startsWithStr "og:title" "twitter:" then
            [(dropStr 8 "og:title", "x")]
          else [] } :=
  ⟨by decide, by decide, c6_meta_routing "og:title" "x" (by decide) (by decide)⟩

theorem processSrcsetCandidate_images_mono (resolve : String → Option String)
    (alt : String) (st : LState) (cand : List Char) :
    ∃ l, (processSrcsetCandidate resolve alt st cand).images =
      st.images ++ l := by
  simp only [processSrcsetCandidate]
  split
  next =>
    split
    next => exact ⟨_, rfl⟩
    next => exact ⟨[], by simp⟩
  next => exact ⟨[], by simp⟩

theorem foldl_srcset_images_mono (resolve : String → Option String)
    (alt : String) (cands : List (List Char)) (st : LState) :
    ∃ l, (cands.foldl (processSrcsetCandidate resolve alt) st).images =
      st.images ++ l := by
  induction cands generalizing st with
  | nil => exact ⟨[], by simp⟩
  | cons c cs ih =>
    rw [List.foldl_cons]
    obtain ⟨l2, h2⟩ := ih (processSrcsetCandidate resolve alt st c)
    obtain ⟨l1, h1⟩ := processSrcsetCandidate_images_mono resolve alt st c
    exact ⟨l1 ++ l2, by rw [h2, h1, List.append_assoc]⟩

theorem processImg_src_mem (resolve : String → Option String) (img : ImgEl)
    (st : LState) (s u : String) (hsrc : jsOrS img.src img.dataSrc = some s)
    (hs : s ≠ "") (hr : resolve s = some u) (hfresh : u ∉ st.seen) :
    ∃ l, (processImg resolve st img).images =
      st.images ++ ImageRef.mk u (jsAltOf img) "img" :: l := by
  unfold processImg
  rw [hsrc]
  simp only [jsTruthy, Option.getD_some]
  rw [if_pos (by simpa using hs), hr]
  dsimp only
  rw [if_pos hfresh]
  split
  next ss hss =>
    split
    next =>
      obtain ⟨l, hl⟩ := foldl_srcset_images_mono resolve (jsAltOf img)
        (splitChar ',' ss.toList)
        ⟨st.seen ++ [u], st.images ++ [ImageRef.mk u (jsAltOf img) "img"],
          st.backgrounds⟩
      exact ⟨l, by rw [hl]; simp⟩
    next => exact ⟨[], by simp⟩
  next => exact ⟨[], by simp⟩

/-! ## Claim C7 -/

/-- Claim C7 counterexample: an img carrying both src and data-src with
well-formed, distinct, unseen URLs yields a single recorded image entry,
for the src candidate only: the source computes src || data-src, so the
data-src candidate is neither resolved nor recorded. -/
theorem c7_counterexample :
    (extract_assets (fun s => some s) (fun _ => none)
        [⟨some "a.png", some "b.png", none, none⟩] [] []).images.map
      ImageRef.url = ["a.png"] ∧
    "b.png" ∉ (extract_assets (fun s => some s) (fun _ => none)
        [⟨some "a.png", some "b.png", none, none⟩] [] []).images.map
      ImageRef.url := by decide

/-- Claim C7 (amended): in locateAssets, the src candidate (with data-src
used only when src is absent or empty) and the srcset candidates of an
img are resolved against the base URL and recorded when fresh; when an
img carries both src and data-src, data-src is ignored: the outcome
equals that of the same img without data-src, and the resolved src is
recorded. -/
theorem c7_src_fallback (resolve : String → Option String)
    (bgUrlOf : String → Option String) (s : String) (d ss alt : Option String)
    (u : String) (hs : s ≠ "") (hr : resolve s = some u) :
    extract_assets resolve bgUrlOf [⟨some s, d, ss, alt⟩] [] [] =
      extract_assets resolve bgUrlOf [⟨some s, none, ss, alt⟩] [] [] ∧
    u ∈ (extract_assets resolve bgUrlOf
      [⟨some s, d, ss, alt⟩] [] []).images.map ImageRef.url := by
  have hjs : jsOrS (some s) d = some s := by simp [jsOrS, hs]
  constructor
  · unfold extract_assets
    simp only [List.foldl_cons, List.foldl_nil]
    unfold processImg
    rw [hjs]
    simp [jsOrS, jsAltOf, hs]
  · obtain ⟨l, hl⟩ := processImg_src_mem resolve ⟨some s, d, ss, alt⟩
      ⟨[], [], []⟩ s u hjs hs hr (List.not_mem_nil u)
    have hi : (extract_assets resolve bgUrlOf
        [⟨some s, d, ss, alt⟩] [] []).images =
        (processImg resolve ⟨[], [], []⟩ ⟨some s, d, ss, alt⟩).images := rfl
    rw [hi, hl]
    simp

/-- Witness for c7_src_fallback: both attributes set, identity resolver. -/
theorem c7_src_fallback_witness :
    ("a.png" : String) ≠ "" ∧
    (fun s => some s : String → Option String) "a.png" = some "a.png" ∧
    (extract_assets (fun s => some s) (fun _ => none)
        [⟨some "a.png", some "b.png", none, none⟩] [] [] =
      extract_assets (fun s => some s) (fun _ => none)
        [⟨some "a.png", none, none, none⟩] [] []) ∧
    "a.png" ∈ (extract_assets (fun s => some s) (fun _ => none)
      [⟨some "a.png", some "b.png", none, none⟩] [] []).images.map
        ImageRef.url :=
  ⟨by decide, rfl,
    c7_src_fallback (fun s => some s) (fun _ => none) "a.png"
      (some "b.png") none none "a.png" (by decide) rfl⟩

theorem processAsset_skip_data (env : Env) (cw : Bool) (st : DState) (a : Asset)
    (h : startsWithStr a.url "data:" = true) :
    processAsset env cw st a = st := by
  unfold processAsset
  rw [if_pos h]

theorem processAsset_skip_fetch_none (env : Env) (cw : Bool) (st : DState)
    (a : Asset) (hd : startsWithStr a.url "data:" = false)
    (hf : env.fetch a.url = none) :
    processAsset env cw st a = st := by
  unfold processAsset
  rw [if_neg (by simp [hd]), hf]

theorem processAsset_skip_status (env : Env) (cw : Bool) (st : DState)
    (a : Asset) (r : FetchResult) (hd : startsWithStr a.url "data:" = false)
    (hf : env.fetch a.url = some r) (hst : r.status ≠ 200) :
    processAsset env cw st a = st := by
  unfold processAsset
  rw [if_neg (by simp [hd]), hf]
  dsimp only
  rw [if_neg hst]

theorem saveOriginalFile_fail (env : Env) (st : DState) (url : String)
    (content : List Nat) (h ext : String)
    (hw : env.writeOk (h ++ (if ext = "" then ".jpg" else ext)) = false) :
    saveOriginalFile env st url content h ext = st := by
  simp only [saveOriginalFile]
  rw [if_neg (by simp [hw])]

theorem saveOriginalFile_ok (env : Env) (st : DState) (url : String)
    (content : List Nat) (h ext : String)
    (hw : env.writeOk (h ++ (if ext = "" then ".jpg" else ext)) = true) :
    saveOriginalFile env st url content h ext =
      { downloaded := st.downloaded ++
          [⟨url, "assets/images/" ++ (h ++ (if ext = "" then ".jpg" else ext)),
            false⟩],
        seen := st.seen ++
          [(h, "assets/images/" ++ (h ++ (if ext = "" then ".jpg" else ext)))],
        writes := st.writes ++
          [⟨h ++ (if ext = "" then ".jpg" else ext), WriteData.raw content⟩] } := by
  simp only [saveOriginalFile]
  rw [if_pos hw]

theorem processAsset_skip_save (env : Env) (cw : Bool) (st : DState)
    (a : Asset) (r : FetchResult) (hd : startsWithStr a.url "data:" = false)
    (hf : env.fetch a.url = some r) (hst : r.status = 200)
    (hfresh : List.lookup (env.md5 r.content) st.seen = none)
    (hsv : saveFails env cw a.url r.content = true) :
    processAsset env cw st a = st := by
  unfold processAsset
  rw [if_neg (by simp [hd]), hf]
  dsimp only
  rw [if_pos hst, hfresh]
  dsimp only
  simp only [saveFails] at hsv
  split at hsv
  next hcond =>
    rw [if_pos hcond]
    split at hsv
    next img0 heq =>
      rw [Bool.and_eq_true, Bool.not_eq_true', Bool.not_eq_true'] at hsv
      rw [if_neg (by simp [hsv.1])]
      exact saveOriginalFile_fail env st a.url r.content _ _ hsv.2
    next heq =>
      rw [Bool.not_eq_true'] at hsv
      exact saveOriginalFile_fail env st a.url r.content _ _ hsv
  next hcond =>
    rw [if_neg hcond]
    rw [Bool.not_eq_true'] at hsv
    exact saveOriginalFile_fail env st a.url r.content _ _ hsv

theorem processAsset_dedup_hit (env : Env) (cw : Bool) (st : DState)
    (a : Asset) (r : FetchResult) (p : String)
    (hd : startsWithStr a.url "data:" = false)
    (hf : env.fetch a.url = some r) (hst : r.status = 200)
    (hit : List.lookup (env.md5 r.content) st.seen = some p) :
    processAsset env cw st a =
      { st with downloaded := st.downloaded ++ [⟨a.url, p, false⟩] } := by
  unfold processAsset
  rw [if_neg (by simp [hd]), hf]
  dsimp only
  rw [if_pos hst, hit]

theorem processAsset_fresh_success (env : Env) (cw : Bool) (st : DState)
    (a : Asset) (r : FetchResult) (hd : startsWithStr a.url "data:" = false)
    (hf : env.fetch a.url = some r) (hst : r.status = 200)
    (hfresh : List.lookup (env.md5 r.content) st.seen = none)
    (hw : ∀ f, env.writeOk f = true)
    (hwp : ∀ f i, env.webpSaveOk f i = true) :
    ∃ p c w, processAsset env cw st a =
      ⟨st.downloaded ++ [⟨a.url, p, c⟩],
        st.seen ++ [(env.md5 r.content, p)],
        st.writes ++ [w]⟩ := by
  unfold processAsset
  rw [if_neg (by simp [hd]), hf]
  dsimp only
  rw [if_pos hst, hfresh]
  dsimp only
  split
  next =>
    split
    next img0 heq =>
      rw [if_pos (hwp _ _)]
      exact ⟨_, _, _, rfl⟩
    next =>
      rw [saveOriginalFile_ok env st a.url r.content _ _ (hw _)]
      exact ⟨_, _, _, rfl⟩
  next =>
    rw [saveOriginalFile_ok env st a.url r.content _ _ (hw _)]
    exact ⟨_, _, _, rfl⟩

/-! ## Claim C10 -/

/-- Claim C10: when a non-data URL downloads with status 200, its URL path
has no file extension and the content hash is fresh, no WebP conversion
applies (the extension is not raster-eligible) and the bytes are stored
unchanged under the default extension: the filename is the content hash
plus .jpg. -/
theorem c10_default_jpg (env : Env) (cw : Bool) (st : DState) (u : String)
    (b : List Nat) (hd : startsWithStr u "data:" = false)
    (hf : env.fetch u = some ⟨200, b⟩)
    (hsuf : pathSuffix (urlPath u) = "")
    (hfresh : List.lookup (env.md5 b) st.seen = none)
    (hw : env.writeOk (env.md5 b ++ ".jpg") = true) :
    processAsset env cw st ⟨u⟩ =
      { downloaded := st.downloaded ++
          [⟨u, "assets/images/" ++ (env.md5 b ++ ".jpg"), false⟩],
        seen := st.seen ++
          [(env.md5 b, "assets/images/" ++ (env.md5 b ++ ".jpg"))],
        writes := st.writes ++ [⟨env.md5 b ++ ".jpg", WriteData.raw b⟩] } := by
  unfold processAsset
  rw [if_neg (by simp [hd]), hf]
  dsimp only
  rw [if_pos rfl, hfresh]
  dsimp only
  rw [hsuf]
  have hlow : lowerStr "" = "" := rfl
  rw [hlow]
  rw [if_neg (by simp [rasterExts])]
  rw [saveOriginalFile_ok env st u b (env.md5 b) "" (by simpa using hw)]
  simp

/-- Witness for c10_default_jpg on a concrete extensionless URL. -/
theorem c10_default_jpg_witness :
    startsWithStr "http://h/img" "data:" = false ∧
    noExtEnv.fetch "http://h/img" = some ⟨200, [3]⟩ ∧
    pathSuffix (urlPath "http://h/img") = "" ∧
    List.lookup (noExtEnv.md5 [3]) (DState.mk [] [] []).seen = none ∧
    noExtEnv.writeOk (noExtEnv.md5 [3] ++ ".jpg") = true ∧
    processAsset noExtEnv true ⟨[], [], []⟩ ⟨"http://h/img"⟩ =
      { downloaded := [] ++
          [⟨"http://h/img", "assets/images/" ++ (noExtEnv.md5 [3] ++ ".jpg"),
            false⟩],
        seen := [] ++
          [(noExtEnv.md5 [3], "assets/images/" ++ (noExtEnv.md5 [3] ++ ".jpg"))],
        writes := [] ++ [⟨noExtEnv.md5 [3] ++ ".jpg", WriteData.raw [3]⟩] } :=
  ⟨by decide, by decide, by decide, rfl, by decide,
    c10_default_jpg noExtEnv true ⟨[], [], []⟩ "http://h/img" [3]
      (by decide) (by decide) (by decide) rfl (by decide)⟩

/-! ## Claim C2 -/

theorem fold_processAsset_all_fail (env : Env) (cw : Bool) (l : List Asset)
    (h : ∀ a ∈ l, assetFails env cw a.url = true) :
    l.foldl (processAsset env cw) ⟨[], [], []⟩ = ⟨[], [], []⟩ := by
  induction l with
  | nil => rfl
  | cons a as ih =>
    rw [List.foldl_cons]
    have ha := h a (List.mem_cons_self a as)
    have hstep : processAsset env cw ⟨[], [], []⟩ a = ⟨[], [], []⟩ := by
      unfold assetFails at ha
      split at ha
      next hdata => exact processAsset_skip_data env cw _ a hdata
      next hdata =>
        rw [Bool.not_eq_true] at hdata
        split at ha
        next hnone => exact processAsset_skip_fetch_none env cw _ a (by simpa using hdata) hnone
        next r hsome =>
          split at ha
          next hok =>
            exact processAsset_skip_save env cw _ a r (by simpa using hdata)
              hsome hok rfl ha
          next hnot =>
            exact processAsset_skip_status env cw _ a r (by simpa using hdata)
              hsome hnot
    rw [hstep]
    exact ih (fun x hx => h x (List.mem_cons_of_mem a hx))

/-- Claim C2: materialization never fails as a whole; when every candidate
of the combined asset list fails individually (data URL, fetch exception,
non-200 response, or a save failure), each is recorded as a skip only:
the result reports zero images and a skip count equal to the number of
candidates. -/
theorem c2_failures_are_skips (env : Env) (cw : Bool) (assets : AssetsData)
    (h : ∀ a ∈ assets.images ++ assets.backgrounds,
      assetFails env cw a.url = true) :
    (download_assets env assets cw).total_images = 0 ∧
    (download_assets env assets cw).deduplicated =
      (assets.images ++ assets.backgrounds).length := by
  simp only [download_assets]
  rw [fold_processAsset_all_fail env cw _ h]
  simp

/-- Witness for c2_failures_are_skips: a page with exactly two image
candidates whose URLs both return HTTP 404 yields zero images and a skip
count of two. -/
theorem c2_failures_are_skips_witness :
    (∀ a ∈ (AssetsData.mk [⟨"http://h/a.png"⟩, ⟨"http://h/b.png"⟩] [] []).images ++
        (AssetsData.mk [⟨"http://h/a.png"⟩, ⟨"http://h/b.png"⟩] [] []).backgrounds,
      assetFails all404Env true a.url = true) ∧
    (download_assets all404Env
      ⟨[⟨"http://h/a.png"⟩, ⟨"http://h/b.png"⟩], [], []⟩ true).total_images = 0 ∧
    (download_assets all404Env
      ⟨[⟨"http://h/a.png"⟩, ⟨"http://h/b.png"⟩], [], []⟩ true).deduplicated =
      ((AssetsData.mk [⟨"http://h/a.png"⟩, ⟨"http://h/b.png"⟩] [] []).images ++
        (AssetsData.mk [⟨"http://h/a.png"⟩, ⟨"http://h/b.png"⟩] [] []).backgrounds).length :=
  ⟨by decide,
    c2_failures_are_skips all404Env true
      ⟨[⟨"http://h/a.png"⟩, ⟨"http://h/b.png"⟩], [], []⟩ (by decide)⟩

/-! ## Claim C1 -/

/-- Claim C1: when two candidates with distinct source URLs fetch
byte-identical content successfully and every save succeeds, exactly one
file is written to storage and exactly one entry enters the content-hash
table; the later candidate is assigned the local path of the earlier one
and no conversion is applied to it (its converted flag stays false). -/
theorem c1_content_dedup (env : Env) (cw : Bool) (u1 u2 : String)
    (b : List Nat) (hne : u1 ≠ u2)
    (hd1 : startsWithStr u1 "data:" = false)
    (hd2 : startsWithStr u2 "data:" = false)
    (hf1 : env.fetch u1 = some ⟨200, b⟩)
    (hf2 : env.fetch u2 = some ⟨200, b⟩)
    (hw : ∀ f, env.writeOk f = true)
    (hwp : ∀ f i, env.webpSaveOk f i = true) :
    ∃ p c w, download_assets env ⟨[⟨u1⟩, ⟨u2⟩], [], []⟩ cw =
      { images := [⟨u1, p, c⟩, ⟨u2, p, false⟩],
        svgs := [],
        total_images := 2,
        total_svgs := 0,
        deduplicated := 0,
        seen := [(env.md5 b, p)],
        writes := [w],
        svgWrites := [] } := by
  obtain ⟨p, c, w, hstep1⟩ := processAsset_fresh_success env cw ⟨[], [], []⟩
    ⟨u1⟩ ⟨200, b⟩ hd1 hf1 rfl rfl hw hwp
  refine ⟨p, c, w, ?_⟩
  simp only [download_assets, List.append_nil, List.foldl_cons, List.foldl_nil]
  rw [hstep1]
  simp only [List.nil_append]
  have hstep2 := processAsset_dedup_hit env cw
    ⟨[⟨u1, p, c⟩], [(env.md5 b, p)], [w]⟩ ⟨u2⟩ ⟨200, b⟩ p hd2 hf2 rfl
    (by simp [List.lookup])
  rw [hstep2]
  simp [processSvgs]

/-- Witness for c1_content_dedup: two distinct URLs serving the same
byte. -/
theorem c1_content_dedup_witness :
    ("u1" : String) ≠ "u2" ∧
    ∃ p c w, download_assets sameBytesEnv ⟨[⟨"u1"⟩, ⟨"u2"⟩], [], []⟩ false =
      { images := [⟨"u1", p, c⟩, ⟨"u2", p, false⟩],
        svgs := [],
        total_images := 2,
        total_svgs := 0,
        deduplicated := 0,
        seen := [(sameBytesEnv.md5 [7], p)],
        writes := [w],
        svgWrites := [] } :=
  ⟨by decide,
    c1_content_dedup sameBytesEnv false "u1" "u2" [7] (by decide) (by decide)
      (by decide) (by decide) (by decide) (fun _ => rfl) (fun _ _ => rfl)⟩

theorem zipWith_pastePixel_alpha (l1 l2 : List Pixel) :
    ∀ p ∈ List.zipWith pastePixel l1 l2, p.a = 255 := by
  induction l1 generalizing l2 with
  | nil => simp
  | cons x xs ih =>
    cases l2 with
    | nil => simp
    | cons y ys =>
      intro p hp
      rw [List.zipWith_cons_cons] at hp
      rcases List.mem_cons.mp hp with rfl | hp
      · rfl
      · exact ih ys p hp

theorem flattenConvert_flattens (img : PImage)
    (h : img.mode = PMode.RGBA ∨ img.mode = PMode.LA ∨ img.mode = PMode.P) :
    (flattenConvert img).mode = PMode.RGB ∧ allAlpha255 (flattenConvert img) := by
  simp only [flattenConvert]
  rw [if_pos h]
  refine ⟨rfl, ?_⟩
  intro p hp
  exact zipWith_pastePixel_alpha _ _ p hp

theorem zipWith_pastePixel_transparent (l : List Pixel)
    (h : ∀ p ∈ l, p.a = 0) :
    List.zipWith pastePixel (List.replicate l.length whitePixel) l =
      List.replicate l.length whitePixel := by
  induction l with
  | nil => rfl
  | cons x xs ih =>
    have hx : x.a = 0 := h x (List.mem_cons_self x xs)
    have hxs := ih (fun p hp => h p (List.mem_cons_of_mem x hp))
    rw [List.length_cons, List.replicate_succ, List.zipWith_cons_cons, hxs]
    congr 1
    simp [pastePixel, blendChannel, hx, whitePixel]

theorem flattenConvert_transparent_white (img : PImage)
    (hm : img.mode = PMode.RGBA) (ht : fullyTransparent img) :
    (flattenConvert img).pixels = List.replicate img.pixels.length whitePixel := by
  simp only [flattenConvert]
  rw [if_pos (Or.inl hm), if_neg (by simp [hm])]
  simp only [pasteMask, newRGBWhite]
  exact zipWith_pastePixel_transparent img.pixels ht

/-! ## Claim C4 -/

/-- Claim C4: with conversion on and a raster URL extension, a decoded
image with an alpha or palette mode is flattened against a white
background before re-encoding, the flattened image is an RGB image with
no residual transparency, and flattening a fully transparent RGBA image
gives an all-white canvas; on decode failure or on encode failure the
original bytes are written unchanged under the original (lowercased)
extension. -/
theorem c4_flatten_and_fallback (env : Env) (st : DState) (u : String)
    (b : List Nat) (hd : startsWithStr u "data:" = false)
    (hf : env.fetch u = some ⟨200, b⟩)
    (hfresh : List.lookup (env.md5 b) st.seen = none)
    (hraster : rasterExts.contains (lowerStr (pathSuffix (urlPath u))) = true)
    (hwok : env.writeOk (env.md5 b ++ lowerStr (pathSuffix (urlPath u))) = true) :
    (∀ img0, env.decode b = some img0 →
      env.webpSaveOk (env.md5 b ++ ".webp") (flattenConvert img0) = true →
      processAsset env true st ⟨u⟩ =
        ⟨st.downloaded ++
            [⟨u, "assets/images/" ++ (env.md5 b ++ ".webp"), true⟩],
          st.seen ++ [(env.md5 b, "assets/images/" ++ (env.md5 b ++ ".webp"))],
          st.writes ++
            [⟨env.md5 b ++ ".webp", WriteData.webp (flattenConvert img0)⟩]⟩) ∧
    (∀ img0, env.decode b = some img0 →
      env.webpSaveOk (env.md5 b ++ ".webp") (flattenConvert img0) = false →
      processAsset env true st ⟨u⟩ =
        ⟨st.downloaded ++
            [⟨u, "assets/images/" ++
              (env.md5 b ++ lowerStr (pathSuffix (urlPath u))), false⟩],
          st.seen ++ [(env.md5 b, "assets/images/" ++
            (env.md5 b ++ lowerStr (pathSuffix (urlPath u))))],
          st.writes ++
            [⟨env.md5 b ++ lowerStr (pathSuffix (urlPath u)),
              WriteData.raw b⟩]⟩) ∧
    (env.decode b = none →
      processAsset env true st ⟨u⟩ =
        ⟨st.downloaded ++
            [⟨u, "assets/images/" ++
              (env.md5 b ++ lowerStr (pathSuffix (urlPath u))), false⟩],
          st.seen ++ [(env.md5 b, "assets/images/" ++
            (env.md5 b ++ lowerStr (pathSuffix (urlPath u))))],
          st.writes ++
            [⟨env.md5 b ++ lowerStr (pathSuffix (urlPath u)),
              WriteData.raw b⟩]⟩) ∧
    (∀ img, (img.mode = PMode.RGBA ∨ img.mode = PMode.LA ∨
        img.mode = PMode.P) →
      (flattenConvert img).mode = PMode.RGB ∧
        allAlpha255 (flattenConvert img)) ∧
    (∀ img, img.mode = PMode.RGBA → fullyTransparent img →
      (flattenConvert img).pixels =
        List.replicate img.pixels.length whitePixel) := by
  have hextne : lowerStr (pathSuffix (urlPath u)) ≠ "" := by
    intro he
    rw [he] at hraster
    exact absurd hraster (by decide)
  have hext2 : (if lowerStr (pathSuffix (urlPath u)) = "" then ".jpg"
      else lowerStr (pathSuffix (urlPath u))) =
      lowerStr (pathSuffix (urlPath u)) := if_neg hextne
  refine ⟨?_, ?_, ?_, flattenConvert_flattens, flattenConvert_transparent_white⟩
  · intro img0 hdec hsave
    unfold processAsset
    rw [if_neg (by simp [hd]), hf]
    dsimp only
    rw [if_pos rfl, hfresh]
    dsimp only
    rw [if_pos (by simpa using hraster), hdec]
    dsimp only
    rw [if_pos hsave]
  · intro img0 hdec hsave
    unfold processAsset
    rw [if_neg (by simp [hd]), hf]
    dsimp only
    rw [if_pos rfl, hfresh]
    dsimp only
    rw [if_pos (by simpa using hraster), hdec]
    dsimp only
    rw [if_neg (by simp [hsave])]
    rw [saveOriginalFile_ok env st u b (env.md5 b) _ (by rw [hext2]; exact hwok)]
    rw [hext2]
  · intro hdec
    unfold processAsset
    rw [if_neg (by simp [hd]), hf]
    dsimp only
    rw [if_pos rfl, hfresh]
    dsimp only
    rw [if_pos (by simpa using hraster), hdec]
    dsimp only
    rw [saveOriginalFile_ok env st u b (env.md5 b) _ (by rw [hext2]; exact hwok)]
    rw [hext2]

/-- Witness for c4_flatten_and_fallback: a fully transparent one-pixel
RGBA png converts to an all-white WebP write, not a failure. -/
theorem c4_flatten_and_fallback_witness :
    rasterExts.contains
      (lowerStr (pathSuffix (urlPath "http://h/a.png"))) = true ∧
    processAsset transparentPngEnv true ⟨[], [], []⟩ ⟨"http://h/a.png"⟩ =
      ⟨[] ++ [⟨"http://h/a.png",
          "assets/images/" ++ (transparentPngEnv.md5 [9] ++ ".webp"), true⟩],
        [] ++ [(transparentPngEnv.md5 [9],
          "assets/images/" ++ (transparentPngEnv.md5 [9] ++ ".webp"))],
        [] ++ [⟨transparentPngEnv.md5 [9] ++ ".webp",
          WriteData.webp (flattenConvert ⟨PMode.RGBA, [⟨10, 20, 30, 0⟩]⟩)⟩]⟩ ∧
    (flattenConvert ⟨PMode.RGBA, [⟨10, 20, 30, 0⟩]⟩).pixels =
      List.replicate ([⟨10, 20, 30, 0⟩] : List Pixel).length whitePixel :=
  ⟨by decide,
    (c4_flatten_and_fallback transparentPngEnv ⟨[], [], []⟩ "http://h/a.png"
        [9] (by decide) (by decide) rfl (by decide) rfl).1
      ⟨PMode.RGBA, [⟨10, 20, 30, 0⟩]⟩ (by decide) rfl,
    (c4_flatten_and_fallback transparentPngEnv ⟨[], [], []⟩ "http://h/a.png"
        [9] (by decide) (by decide) rfl (by decide) rfl).2.2.2.2
      ⟨PMode.RGBA, [⟨10, 20, 30, 0⟩]⟩ rfl (by simp [fullyTransparent])⟩

theorem saveOriginalFile_downloaded (env : Env) (st : DState) (url : String)
    (content : List Nat) (h ext : String) :
    (saveOriginalFile env st url content h ext).downloaded.length ≤
      st.downloaded.length + 1 := by
  by_cases hw : env.writeOk (h ++ (if ext = "" then ".jpg" else ext)) = true
  · rw [saveOriginalFile_ok env st url content h ext hw]
    simp
  · rw [saveOriginalFile_fail env st url content h ext (by simpa using hw)]
    exact Nat.le_succ _

theorem processAsset_downloaded_grow (env : Env) (cw : Bool) (st : DState)
    (a : Asset) :
    (processAsset env cw st a).downloaded.length ≤
      st.downloaded.length + 1 := by
  by_cases hd : startsWithStr a.url "data:" = true
  · rw [processAsset_skip_data env cw st a hd]
    exact Nat.le_succ _
  · have hd2 : startsWithStr a.url "data:" = false := by simpa using hd
    cases hf : env.fetch a.url with
    | none =>
      rw [processAsset_skip_fetch_none env cw st a hd2 hf]
      exact Nat.le_succ _
    | some r =>
      by_cases hst : r.status = 200
      · cases hit : List.lookup (env.md5 r.content) st.seen with
        | some p =>
          rw [processAsset_dedup_hit env cw st a r p hd2 hf hst hit]
          simp
        | none =>
          unfold processAsset
          rw [if_neg (by simp [hd2]), hf]
          dsimp only
          rw [if_pos hst, hit]
          dsimp only
          split
          · split
            · split
              · simp
              · exact saveOriginalFile_downloaded env st a.url r.content _ _
            · exact saveOriginalFile_downloaded env st a.url r.content _ _
          · exact saveOriginalFile_downloaded env st a.url r.content _ _
      · rw [processAsset_skip_status env cw st a r hd2 hf hst]
        exact Nat.le_succ _

theorem fold_downloaded_le (env : Env) (cw : Bool) (l : List Asset)
    (st : DState) :
    (l.foldl (processAsset env cw) st).downloaded.length ≤
      st.downloaded.length + l.length := by
  induction l generalizing st with
  | nil => simp
  | cons a as ih =>
    rw [List.foldl_cons]
    have h1 := ih (processAsset env cw st a)
    have h2 := processAsset_downloaded_grow env cw st a
    simp only [List.length_cons]
    omega

/-! ## Claim C5 -/

/-- Claim C5 counterexample: two candidates with distinct URLs serving
byte-identical content both materialize successfully; one file is stored,
yet the reported deduplication count is 0, not candidates minus unique
stored files = 2 - 1 = 1, because dedup hits are appended to the result
list that the count subtracts. -/
theorem c5_counterexample :
    (download_assets sameBytesEnv
      ⟨[⟨"u1"⟩, ⟨"u2"⟩], [], []⟩ false).writes.length = 1 ∧
    ((AssetsData.mk [⟨"u1"⟩, ⟨"u2"⟩] [] []).images ++
      (AssetsData.mk [⟨"u1"⟩, ⟨"u2"⟩] [] []).backgrounds).length = 2 ∧
    (download_assets sameBytesEnv
      ⟨[⟨"u1"⟩, ⟨"u2"⟩], [], []⟩ false).deduplicated ≠ 2 - 1 := by decide

/-- Claim C5 (amended): the reported deduplication count equals the number
of candidates that produced no result entry (skipped assets): it always
partitions the candidate list together with total_images.  Dedup hits do
append a result entry, so the count is not candidates minus distinct
stored files. -/
theorem c5_dedup_count (env : Env) (assets : AssetsData) (cw : Bool) :
    (download_assets env assets cw).deduplicated +
      (download_assets env assets cw).total_images =
      (assets.images ++ assets.backgrounds).length := by
  simp only [download_assets]
  have hle := fold_downloaded_le env cw (assets.images ++ assets.backgrounds)
    ⟨[], [], []⟩
  simp only [List.length_nil] at hle
  omega
